import Mathlib

/-!
Shallow embedding of the ClipNest clipboard manager (Python sources:
`database.py`, `clipboard_monitor.py`, `ui.py`, `main.py`).

The SQLite table `clipboard_items` is modelled as a list of `Row` values kept
in insertion (rowid) order.  Machine-level SQL behaviour made explicit here:

* `datetime(timestamp) > datetime('now','-w minutes')` becomes an integer
  comparison on timestamps measured in seconds (`now - 60*w < r.timestamp`);
* `ORDER BY ... LIMIT n` becomes `mergeSort` with a boolean order followed by
  `take n`; SQLite leaves the order of ties unspecified, so the embedding
  fixes deterministic tie-breaking by rowid, and all theorems below only use
  tie-independent consequences (sortedness, membership, lengths);
* `DELETE WHERE id IN (...)` becomes a filter on the id;
* SQLite's default `LIKE` is case-insensitive on the ASCII range and treats
  `%` and `_` in the pattern as wildcards; `likeMatch` implements exactly
  that semantics for the pattern `'%' + query + '%'` built by `search_items`.

Every Python `try/except` block is modelled by explicit error flags: a flag
set to `true` means the underlying SQLite call raises inside that block, and
the embedded function returns what the `except` branch of the code returns.
-/

namespace ClipNest

/-- One row of the `clipboard_items` table (`database.py`, `_create_tables`):
id (AUTOINCREMENT rowid), content_type, content, timestamp, is_favorite
(defaults FALSE on insert) and created_at (defaults CURRENT_TIMESTAMP). -/
structure Row where
  id : Nat
  content_type : String
  content : String
  timestamp : Int
  is_favorite : Bool
  created_at : Int
deriving DecidableEq, Repr

/-- State of a `ClipboardDatabase` object: the table rows in rowid order, the
next AUTOINCREMENT id, and the `history_limit` attribute. -/
structure ClipboardDatabase where
  rows : List Row
  next_id : Nat
  history_limit : Nat
deriving DecidableEq, Repr

/-- Fresh database with a configured history cap: empty table, rowids start
at 1 (`__init__` sets `self.history_limit`; 200 is the default). -/
def initWithCap (cap : Nat) : ClipboardDatabase :=
  { rows := [], next_id := 1, history_limit := cap }

/-- The state produced by `ClipboardDatabase.__init__` (default limit 200). -/
def initDB : ClipboardDatabase := initWithCap 200

/-- Embeds `_is_duplicate`: SELECT COUNT(*) of rows with the same content and
`datetime(timestamp) > datetime('now','-w minutes')`; returns whether the
count is positive.  `eDup = true` models the query raising, in which case the
function's own `except` branch returns `False`. -/
def is_duplicate (eDup : Bool) (st : ClipboardDatabase) (content : String)
    (now : Int) (time_window_minutes : Int) : Bool :=
  if eDup then false
  else st.rows.any fun r =>
    r.content == content && decide (now - 60 * time_window_minutes < r.timestamp)

/-- Order used by the eviction query `ORDER BY timestamp ASC` (ties broken
by rowid, see the file header). -/
def evictLe (a b : Row) : Prop :=
  a.timestamp < b.timestamp ∨ (a.timestamp = b.timestamp ∧ a.id ≤ b.id)

instance : DecidableRel evictLe := fun a b =>
  inferInstanceAs (Decidable (a.timestamp < b.timestamp ∨
    (a.timestamp = b.timestamp ∧ a.id ≤ b.id)))

instance : IsTotal Row evictLe :=
  ⟨fun a b => by unfold evictLe; omega⟩

instance : IsTrans Row evictLe :=
  ⟨fun a b c h1 h2 => by unfold evictLe at *; omega⟩

/-- Embeds `_enforce_history_limit`: count all rows; if the count exceeds
`history_limit`, delete the `count - history_limit` oldest rows among those
with `is_favorite = FALSE`.  `eEnf = true` models a raise inside the block:
its `except` branch swallows the error and nothing is deleted. -/
def enforce_history_limit (eEnf : Bool) (st : ClipboardDatabase) :
    ClipboardDatabase :=
  if eEnf then st
  else
    let total_items := st.rows.length
    if st.history_limit < total_items then
      let items_to_delete := total_items - st.history_limit
      let victims :=
        (List.insertionSort evictLe
          (st.rows.filter fun r => r.is_favorite == false)).take
          items_to_delete
      let victimIds := victims.map fun r => r.id
      { st with rows := st.rows.filter fun r => decide (r.id ∉ victimIds) }
    else st

/-- Embeds `add_item`: reject recent duplicates (window 1 minute), otherwise
INSERT a non-favorite row with a fresh rowid and then enforce the history
limit; returns True on insert.  `eIns = true` models the INSERT or COMMIT
raising, caught by `add_item`'s own `except` branch which returns `False`. -/
def add_item (eDup eIns eEnf : Bool) (st : ClipboardDatabase)
    (content_type content : String) (timestamp now : Int) :
    Bool × ClipboardDatabase :=
  if is_duplicate eDup st content now 1 then (false, st)
  else if eIns then (false, st)
  else
    let st1 : ClipboardDatabase :=
      { st with
        rows := st.rows ++
          [{ id := st.next_id, content_type := content_type,
             content := content, timestamp := timestamp,
             is_favorite := false, created_at := now }],
        next_id := st.next_id + 1 }
    (true, enforce_history_limit eEnf st1)

/-- Rank of the `is_favorite` column as SQLite orders booleans. -/
def favRank (r : Row) : Nat := if r.is_favorite then 1 else 0

/-- Order used by `ORDER BY is_favorite DESC, timestamp DESC` (ties broken
by rowid, see the file header). -/
def histLe (a b : Row) : Prop :=
  favRank b < favRank a ∨
    (favRank a = favRank b ∧
      (b.timestamp < a.timestamp ∨
        (a.timestamp = b.timestamp ∧ a.id ≤ b.id)))

instance : DecidableRel histLe := fun a b =>
  inferInstanceAs (Decidable (favRank b < favRank a ∨
    (favRank a = favRank b ∧
      (b.timestamp < a.timestamp ∨
        (a.timestamp = b.timestamp ∧ a.id ≤ b.id)))))

instance : IsTotal Row histLe :=
  ⟨fun a b => by unfold histLe; omega⟩

instance : IsTrans Row histLe :=
  ⟨fun a b c h1 h2 => by unfold histLe at *; omega⟩

/-- Embeds `get_history`: SELECT ordered favorites-first then newest-first,
LIMIT `limit`.  `eGet = true` models a raise, caught and turned into `[]`. -/
def get_history (eGet : Bool) (st : ClipboardDatabase) (limit : Nat) :
    List Row :=
  if eGet then [] else (List.insertionSort histLe st.rows).take limit

/-- Uppercase an ASCII lowercase letter, the case folding SQLite's default
`LIKE` applies (ASCII range only). -/
def upperAscii (c : Char) : Char :=
  if 'a' ≤ c ∧ c ≤ 'z' then Char.ofNat (c.toNat - 32) else c

/-- SQLite `LIKE` pattern matching over character lists: `%` matches any
sequence (the remaining pattern must match some suffix), `_` matches any
single character, and other characters compare case-insensitively on the
ASCII range. -/
def likeMatch : List Char → List Char → Bool
  | [], s => s.isEmpty
  | '%' :: ps, s => s.tails.any fun t => likeMatch ps t
  | '_' :: ps, s =>
    match s with
    | [] => false
    | _ :: cs => likeMatch ps cs
  | p :: ps, s =>
    match s with
    | [] => false
    | c :: cs => (upperAscii p == upperAscii c) && likeMatch ps cs

/-- Embeds `search_items`: SELECT rows with `content LIKE '%query%'`, same
ordering and LIMIT as `get_history`.  `eS = true` models a raise, caught and
turned into `[]`. -/
def search_items (eS : Bool) (st : ClipboardDatabase) (query : String)
    (limit : Nat) : List Row :=
  if eS then []
  else
    let search_pattern := "%" ++ query ++ "%"
    (List.insertionSort histLe
      (st.rows.filter fun r =>
        likeMatch search_pattern.data r.content.data)).take limit

/-- Embeds `toggle_favorite`: UPDATE flipping `is_favorite` WHERE id matches;
returns whether `rowcount > 0`.  `e = true` models a raise, caught and turned
into `False` with no change committed. -/
def toggle_favorite (e : Bool) (st : ClipboardDatabase) (item_id : Nat) :
    Bool × ClipboardDatabase :=
  if e then (false, st)
  else
    (st.rows.any fun r => r.id == item_id,
     { st with
       rows := st.rows.map fun r =>
         if r.id = item_id then { r with is_favorite := !r.is_favorite }
         else r })

/-- Embeds `delete_item`: DELETE WHERE id matches; returns whether
`rowcount > 0`.  `e = true` models a raise, caught and turned into `False`. -/
def delete_item (e : Bool) (st : ClipboardDatabase) (item_id : Nat) :
    Bool × ClipboardDatabase :=
  if e then (false, st)
  else
    (st.rows.any fun r => r.id == item_id,
     { st with rows := st.rows.filter fun r => !(r.id == item_id) })

/-- Embeds `clear_history`: DELETE all rows, or only the non-favorite ones
when `keep_favorites`; returns True.  `e = true` models a raise, caught and
turned into `False`. -/
def clear_history (e : Bool) (st : ClipboardDatabase) (keep_favorites : Bool) :
    Bool × ClipboardDatabase :=
  if e then (false, st)
  else if keep_favorites then
    (true, { st with rows := st.rows.filter fun r => r.is_favorite })
  else (true, { st with rows := [] })

/-- Embeds `get_stats`: total count, favorite count and the history limit;
`e = true` models a raise, caught and turned into the empty dict (`none`). -/
def get_stats (e : Bool) (st : ClipboardDatabase) : Option (Nat × Nat × Nat) :=
  if e then none
  else some (st.rows.length,
             (st.rows.filter fun r => r.is_favorite).length,
             st.history_limit)

/-- State of a `ClipNestMonitor` object (`clipboard_monitor.py`).  The
`_skip_next_image` / `_skip_next_text` attributes are created lazily in
Python (`hasattr` guards); an absent attribute behaves like `false`. -/
structure MonitorState where
  ignore_next_change : Bool
  skip_next_image : Bool
  skip_next_text : Bool
  last_clipboard_text : Option String
  last_clipboard_image_hash : Option Nat
deriving DecidableEq, Repr

/-- Monitor state right after `ClipNestMonitor.__init__`. -/
def initMonitor : MonitorState :=
  { ignore_next_change := false, skip_next_image := false,
    skip_next_text := false, last_clipboard_text := none,
    last_clipboard_image_hash := none }

/-- Content of the OS clipboard as the monitor inspects it: `mimeData` with
an image (identified by its content hash, matching `_hash_image`), with
text, or with neither. -/
inductive ClipData where
  | empty
  | text (s : String)
  | image (hash : Nat)
deriving DecidableEq, Repr

/-- Whitespace per Python's `str.strip` with no argument. -/
def isPyWs (c : Char) : Bool :=
  c == ' ' || c == '\t' || c == '\n' || c == '\r' || c == '\x0b' || c == '\x0c'

/-- Python's `not (text and text.strip())`: the string is empty or consists
solely of whitespace. -/
def wsOnly (s : String) : Bool := s.data.all isPyWs

/-- File path the monitor saves a clipboard image to
(`~/.clipboard_manager/images/clipnest_{timestamp}.png`). -/
def imgPath (tsStr : String) : String :=
  "~/.clipboard_manager/images/clipnest_" ++ tsStr ++ ".png"

/-- Embeds `_on_clipboard_change`: honour the one-shot `_ignore_next_change`
flag, prefer image over text, skip duplicate image hashes, skip
empty/whitespace-only or repeated text, and otherwise store a new item with
`timestamp = datetime.now()`.  `tsStr` is the formatted time used in the
saved image's filename; the error flags are forwarded to `add_item`. -/
def on_clipboard_change (eDup eIns eEnf : Bool) (ms : MonitorState)
    (db : ClipboardDatabase) (clip : ClipData) (now : Int) (tsStr : String) :
    MonitorState × ClipboardDatabase :=
  if ms.ignore_next_change then ({ ms with ignore_next_change := false }, db)
  else
    match clip with
    | .image h =>
      if ms.skip_next_image then ({ ms with skip_next_image := false }, db)
      else if some h = ms.last_clipboard_image_hash then (ms, db)
      else
        let res := add_item eDup eIns eEnf db "image" (imgPath tsStr) now now
        ({ ms with last_clipboard_image_hash := some h }, res.2)
    | .text t =>
      if ms.skip_next_text then ({ ms with skip_next_text := false }, db)
      else if wsOnly t then (ms, db)
      else if some t = ms.last_clipboard_text then (ms, db)
      else
        let res := add_item eDup eIns eEnf db "text" t now now
        ({ ms with last_clipboard_text := some t }, res.2)
    | .empty => (ms, db)

/-- Embeds `set_clipboard`: arm the one-shot suppression flags, then write
the clipboard.  For images, `imageHash` is `some h` when `QImage(content)`
is valid (h its content hash) and `none` when it is null, in which case
nothing is written and `False` is returned.  Result: new monitor state, the
clipboard content written (if any), and the Python return value. -/
def set_clipboard (ms : MonitorState) (content : String)
    (content_type : String) (imageHash : Option Nat) :
    MonitorState × Option ClipData × Bool :=
  let ms1 := { ms with
    ignore_next_change := true,
    skip_next_image := content_type == "image",
    skip_next_text := content_type == "text" }
  if content_type == "image" then
    match imageHash with
    | some h => (ms1, some (.image h), true)
    | none => (ms1, none, false)
  else (ms1, some (.text content), true)

/-- Whole-program state relevant to the claims: the monitor, the database and
the OS clipboard content. -/
structure ProgState where
  ms : MonitorState
  db : ClipboardDatabase
  clip : ClipData
deriving DecidableEq, Repr

/-- Qt delivering a `dataChanged` notification for the current clipboard
content to `_on_clipboard_change`. -/
def deliver (eDup eIns eEnf : Bool) (now : Int) (tsStr : String)
    (s : ProgState) : ProgState :=
  let r := on_clipboard_change eDup eIns eEnf s.ms s.db s.clip now tsStr
  { s with ms := r.1, db := r.2 }

/-- Embeds `ui.on_item_clicked` together with the change notification it
triggers: the handler copies the clicked item's content with
`pyperclip.copy(content)` — writing the OS clipboard directly, without going
through `ClipNestMonitor.set_clipboard`, so no suppression flag is armed —
and Qt then delivers the resulting `dataChanged` to the monitor. -/
def on_item_clicked (eDup eIns eEnf : Bool) (now : Int) (tsStr : String)
    (s : ProgState) (content : String) : ProgState :=
  deliver eDup eIns eEnf now tsStr { s with clip := .text content }

/-- A `set_clipboard` call together with the change notification it triggers
(no notification when the null-image branch writes nothing). -/
def set_clipboard_step (eDup eIns eEnf : Bool) (now : Int) (tsStr : String)
    (s : ProgState) (content : String) (content_type : String)
    (imageHash : Option Nat) : ProgState :=
  let r := set_clipboard s.ms content content_type imageHash
  match r.2.1 with
  | some d => deliver eDup eIns eEnf now tsStr { s with ms := r.1, clip := d }
  | none => { s with ms := r.1 }

/-- Reachable program states: start from freshly initialised components and
close under every event of the program — an external clipboard change, a
click on a listed history item (`ui.on_item_clicked`, which copies the
content of some stored row), a `set_clipboard` call, and the UI's database
actions (toggle favorite, delete, clear keeping favorites).  Error flags are
arbitrary at every step. -/
inductive Reach : ProgState → Prop where
  | init : Reach { ms := initMonitor, db := initDB, clip := .empty }
  | external (s : ProgState) (d : ClipData) (eD eI eE : Bool) (now : Int)
      (tsStr : String) : Reach s →
      Reach (deliver eD eI eE now tsStr { s with clip := d })
  | clicked (s : ProgState) (r : Row) (eD eI eE : Bool) (now : Int)
      (tsStr : String) : Reach s → r ∈ s.db.rows →
      Reach (on_item_clicked eD eI eE now tsStr s r.content)
  | setClip (s : ProgState) (content content_type : String)
      (imageHash : Option Nat) (eD eI eE : Bool) (now : Int) (tsStr : String) :
      Reach s →
      Reach (set_clipboard_step eD eI eE now tsStr s content content_type
        imageHash)
  | toggled (s : ProgState) (e : Bool) (i : Nat) : Reach s →
      Reach { s with db := (toggle_favorite e s.db i).2 }
  | deleted (s : ProgState) (e : Bool) (i : Nat) : Reach s →
      Reach { s with db := (delete_item e s.db i).2 }
  | cleared (s : ProgState) (e kf : Bool) : Reach s →
      Reach { s with db := (clear_history e s.db kf).2 }

/-- Well-formedness SQLite guarantees for the `id` column: rowids are
pairwise distinct and below the next AUTOINCREMENT value. -/
def IdsOk (st : ClipboardDatabase) : Prop :=
  (st.rows.map fun r => r.id).Nodup ∧ ∀ r ∈ st.rows, r.id < st.next_id

/-- Database invariant maintained by every program event: well-formed ids
and no stored content that is empty or whitespace-only. -/
def GoodDB (st : ClipboardDatabase) : Prop :=
  IdsOk st ∧ ∀ r ∈ st.rows, wsOnly r.content = false

/-- Arguments of one `add_item` call. -/
structure AddCall where
  content_type : String
  content : String
  timestamp : Int
  now : Int
deriving DecidableEq, Repr

/-- Runs a sequence of `add_item` calls (no injected errors) and counts how
many of them returned True, i.e. how many items were actually inserted. -/
def runAdds (st : ClipboardDatabase) : List AddCall → ClipboardDatabase × Nat
  | [] => (st, 0)
  | a :: rest =>
    let r := add_item false false false st a.content_type a.content
      a.timestamp a.now
    let rest' := runAdds r.2 rest
    (rest'.1, (if r.1 then 1 else 0) + rest'.2)

/-- The ordering `ORDER BY is_favorite DESC, timestamp DESC` promises, free
of any tie-breaking choice: no non-favorite ever precedes a favorite, and
inside a group of equal `is_favorite` the timestamps are non-increasing. -/
def histOrder (a b : Row) : Prop :=
  (b.is_favorite = true → a.is_favorite = true) ∧
    (a.is_favorite = b.is_favorite → b.timestamp ≤ a.timestamp)

/-- Demo run for the self-copy scenario: the freshly started program. -/
def demo0 : ProgState :=
  { ms := initMonitor, db := initDB, clip := ClipData.empty }

/-- Demo run: the user copies "alpha" in some other application. -/
def demo1 : ProgState :=
  deliver false false false 0 "t0" { demo0 with clip := ClipData.text "alpha" }

/-- Demo run: the user then copies "beta" five seconds later. -/
def demo2 : ProgState :=
  deliver false false false 5 "t1" { demo1 with clip := ClipData.text "beta" }

/-- The row the first copy of the demo run stored. -/
def demoRow : Row :=
  { id := 1, content_type := "text", content := "alpha", timestamp := 0,
    is_favorite := false, created_at := 0 }

/-- One-row store used to demonstrate `search_items` wildcard behaviour. -/
def c5db : ClipboardDatabase :=
  { rows := [{ id := 1, content_type := "text", content := "ab",
               timestamp := 0, is_favorite := false, created_at := 0 }],
    next_id := 2, history_limit := 200 }

/-- Store with two non-favorite rows of timestamp 1000 under a configured
cap of 2, built by two `add_item` calls; used for the dedup counterexample. -/
def c3base : ClipboardDatabase :=
  (add_item false false false
    (add_item false false false (initWithCap 2) "text" "a" 1000 1000).2
    "text" "b" 1000 1000).2

/-- Store with one favorite and one newer non-favorite row, used as a
concrete input for several witnesses. -/
def favdb : ClipboardDatabase :=
  { rows := [{ id := 1, content_type := "text", content := "old",
               timestamp := 0, is_favorite := true, created_at := 0 },
             { id := 2, content_type := "text", content := "new",
               timestamp := 10, is_favorite := false, created_at := 10 }],
    next_id := 3, history_limit := 200 }

/-! ### Order lemmas for the embedded SQL orderings -/

theorem evictLe_timestamp_le {a b : Row} (h : evictLe a b) :
    a.timestamp ≤ b.timestamp := by
  unfold evictLe at h; omega

theorem histOrder_of_histLe {a b : Row} (h : histLe a b) :
    histOrder a b := by
  simp only [histLe, favRank] at h
  constructor
  · intro hb
    rcases Bool.eq_false_or_eq_true a.is_favorite with ha | ha
    · exact ha
    · simp [ha, hb] at h
  · intro hfe
    rcases Bool.eq_false_or_eq_true a.is_favorite with ha | ha <;>
      rw [ha] at hfe <;> simp [ha, ← hfe] at h <;> omega

/-! ### Helper lemmas about the embedded operations -/

theorem map_involutive_id {α : Type} (f : α → α) (h : ∀ a, f (f a) = a)
    (l : List α) : (l.map f).map f = l := by
  induction l with
  | nil => rfl
  | cons a l ih => simp [h, ih]

/-- C6: For every item id present in the store, calling `toggle_favorite`
twice on that id restores the item's `is_favorite` flag to its original
value and leaves every other field of every row unchanged — proved in the
strongest form: the whole store state is restored, for every id. -/
theorem C6_toggle_favorite_twice (st : ClipboardDatabase) (item_id : Nat) :
    (toggle_favorite false (toggle_favorite false st item_id).2 item_id).2
      = st := by
  obtain ⟨rows, n, cap⟩ := st
  simp only [toggle_favorite, Bool.false_eq_true, ↓reduceIte,
    ClipboardDatabase.mk.injEq, and_true]
  refine map_involutive_id _ ?_ rows
  intro r
  obtain ⟨i, ct, c, ts, fav, ca⟩ := r
  by_cases hid : i = item_id
  · simp [hid]
  · simp [hid]

/-- C10: `toggle_favorite` and `delete_item` return true iff a row with the
given id exists; when none exists, both return false and leave the store
unchanged. -/
theorem C10_return_iff_id_exists (st : ClipboardDatabase) (item_id : Nat) :
    ((toggle_favorite false st item_id).1 = true ↔
      ∃ r ∈ st.rows, r.id = item_id) ∧
    ((delete_item false st item_id).1 = true ↔
      ∃ r ∈ st.rows, r.id = item_id) ∧
    ((∀ r ∈ st.rows, r.id ≠ item_id) →
      (toggle_favorite false st item_id).2 = st ∧
      (delete_item false st item_id).2 = st) := by
  refine ⟨?_, ?_, ?_⟩
  · simp [toggle_favorite, List.any_eq_true]
  · simp [delete_item, List.any_eq_true]
  · intro h
    constructor
    · have h1 : st.rows.map (fun r =>
          if r.id = item_id then { r with is_favorite := !r.is_favorite }
          else r) = st.rows := by
        conv_rhs => rw [← List.map_id st.rows]
        exact List.map_congr_left fun r hr => by simp [h r hr]
      simp only [toggle_favorite, Bool.false_eq_true, ↓reduceIte, h1]
    · have h1 : st.rows.filter (fun r => !(r.id == item_id)) = st.rows :=
        List.filter_eq_self.mpr fun r hr => by simp [h r hr]
      simp only [delete_item, Bool.false_eq_true, ↓reduceIte, h1]

theorem C10_witness :
    (toggle_favorite false c5db 1).1 = true ∧
    (toggle_favorite false c5db 9).2 = c5db ∧
    (delete_item false c5db 9).2 = c5db := by
  refine ⟨?_, ?_, ?_⟩
  · exact (C10_return_iff_id_exists c5db 1).1.mpr
      ⟨⟨1, "text", "ab", 0, false, 0⟩, by decide, rfl⟩
  · exact ((C10_return_iff_id_exists c5db 9).2.2 (by decide)).1
  · exact ((C10_return_iff_id_exists c5db 9).2.2 (by decide)).2

/-- C8: every storage operation catches internal errors and returns a
failure indicator instead of raising.  Error flags model a raise inside the
corresponding `try` block: with the INSERT raising, `add_item` returns
`False` with the store unchanged; a raise inside `_is_duplicate` or
`_enforce_history_limit` is swallowed by the helper's own handler and does
not make `add_item` fail; every other operation returns false / the empty
list / the empty dict when its block raises. -/
theorem C8_errors_swallowed (st : ClipboardDatabase) (ct c q : String)
    (ts now : Int) (lim item_id : Nat) (kf : Bool) :
    (∀ eD eE : Bool, add_item eD true eE st ct c ts now = (false, st)) ∧
    (add_item true false false st ct c ts now).1 = true ∧
    (is_duplicate false st c now 1 = false →
      (add_item false false true st ct c ts now).1 = true) ∧
    get_history true st lim = [] ∧
    search_items true st q lim = [] ∧
    toggle_favorite true st item_id = (false, st) ∧
    delete_item true st item_id = (false, st) ∧
    clear_history true st kf = (false, st) ∧
    get_stats true st = none := by
  refine ⟨?_, ?_, ?_, rfl, rfl, rfl, rfl, rfl, rfl⟩
  · intro eD eE
    cases h : is_duplicate eD st c now 1 <;> simp [add_item, h]
  · simp [add_item, is_duplicate]
  · intro h
    simp [add_item, h]

theorem C8_witness :
    add_item true true false initDB "text" "x" 0 0 = (false, initDB) ∧
    (add_item false false true initDB "text" "x" 0 0).1 = true := by
  constructor
  · exact (C8_errors_swallowed initDB "text" "x" "q" 0 0 0 0 true).1 true false
  · exact (C8_errors_swallowed initDB "text" "x" "q" 0 0 0 0 true).2.2.1
      (by decide)

/-- C7: `get_history` returns at most `limit` rows of the store, ordered
with favorites before non-favorites and, within each group, by descending
timestamp. -/
theorem C7_get_history_shape (st : ClipboardDatabase) (limit : Nat) :
    (get_history false st limit).length ≤ limit ∧
    (∀ r ∈ get_history false st limit, r ∈ st.rows) ∧
    List.Pairwise histOrder (get_history false st limit) := by
  refine ⟨?_, ?_, ?_⟩
  · simp only [get_history, Bool.false_eq_true, ↓reduceIte]
    exact List.length_take_le limit _
  · intro r hr
    simp only [get_history, Bool.false_eq_true, ↓reduceIte] at hr
    exact (List.mem_insertionSort histLe).mp (List.mem_of_mem_take hr)
  · simp only [get_history, Bool.false_eq_true, ↓reduceIte]
    exact ((List.sorted_insertionSort histLe st.rows).sublist
      (List.take_sublist _ _)).imp fun h => histOrder_of_histLe h

theorem eq_of_id_eq {l : List Row} (hn : (l.map fun r => r.id).Nodup)
    {a b : Row} (ha : a ∈ l) (hb : b ∈ l) (hid : a.id = b.id) : a = b :=
  List.inj_on_of_nodup_map hn ha hb hid

theorem nodup_ids_snoc (st : ClipboardDatabase) (hids : IdsOk st) (r : Row)
    (hr : r.id = st.next_id) :
    ((st.rows ++ [r]).map fun x => x.id).Nodup := by
  simp only [List.map_append, List.map_cons, List.map_nil, List.nodup_append,
    List.nodup_cons, List.not_mem_nil, not_false_eq_true, List.nodup_nil,
    and_true, true_and]
  refine ⟨hids.1, ?_⟩
  intro a ha hb
  obtain ⟨rr, hrr, hrid⟩ := List.mem_map.mp ha
  have hlt := hids.2 rr hrr
  simp only [List.mem_singleton] at hb
  omega

theorem enforce_sublist (eE : Bool) (st : ClipboardDatabase) :
    (enforce_history_limit eE st).rows.Sublist st.rows := by
  unfold enforce_history_limit
  cases eE
  · simp only [Bool.false_eq_true, ↓reduceIte]
    by_cases h : st.history_limit < st.rows.length
    · rw [if_pos h]
      exact List.filter_sublist _
    · rw [if_neg h]
  · simp only [↓reduceIte]
    exact List.Sublist.refl _

theorem enforce_next_id (eE : Bool) (st : ClipboardDatabase) :
    (enforce_history_limit eE st).next_id = st.next_id := by
  unfold enforce_history_limit
  cases eE
  · simp only [Bool.false_eq_true, ↓reduceIte]
    by_cases h : st.history_limit < st.rows.length
    · rw [if_pos h]
    · rw [if_neg h]
  · simp only [↓reduceIte]

theorem enforce_limit (eE : Bool) (st : ClipboardDatabase) :
    (enforce_history_limit eE st).history_limit = st.history_limit := by
  unfold enforce_history_limit
  cases eE
  · simp only [Bool.false_eq_true, ↓reduceIte]
    by_cases h : st.history_limit < st.rows.length
    · rw [if_pos h]
    · rw [if_neg h]
  · simp only [↓reduceIte]

theorem favorite_mem_enforce (eE : Bool) (st : ClipboardDatabase)
    (hn : (st.rows.map fun r => r.id).Nodup) (r : Row) (hr : r ∈ st.rows)
    (hf : r.is_favorite = true) : r ∈ (enforce_history_limit eE st).rows := by
  unfold enforce_history_limit
  cases eE
  · simp only [Bool.false_eq_true, ↓reduceIte]
    by_cases h : st.history_limit < st.rows.length
    · rw [if_pos h]
      refine List.mem_filter.mpr ⟨hr, ?_⟩
      simp only [decide_eq_true_eq]
      intro hmem
      obtain ⟨v, hv, hvid⟩ := List.mem_map.mp hmem
      have hv1 := (List.mem_insertionSort evictLe).mp (List.mem_of_mem_take hv)
      have hv2 := List.mem_filter.mp hv1
      have hveq : v = r := eq_of_id_eq hn hv2.1 hr hvid
      rw [hveq] at hv2
      simp [hf] at hv2
    · rw [if_neg h]
      exact hr
  · simp only [↓reduceIte]
    exact hr

/-- C4: favorite rows are deleted neither by the retention eviction an
`add_item` triggers nor by `clear_history` with `keep_favorites = True`,
regardless of age or row count.  The id hypothesis (distinct rowids below
the AUTOINCREMENT counter) is what SQLite guarantees for every real store;
`reach_invariant` below establishes it for every reachable state. -/
theorem C4_favorites_never_evicted (st : ClipboardDatabase) (hids : IdsOk st)
    (eD eI eE e : Bool) (ct c : String) (ts now : Int) (r : Row)
    (hr : r ∈ st.rows) (hf : r.is_favorite = true) :
    r ∈ (add_item eD eI eE st ct c ts now).2.rows ∧
    r ∈ (clear_history e st true).2.rows := by
  constructor
  · unfold add_item
    by_cases hdup : is_duplicate eD st c now 1
    · rw [if_pos hdup]
      exact hr
    · rw [if_neg hdup]
      cases eI
      · simp only [Bool.false_eq_true, ↓reduceIte]
        refine favorite_mem_enforce eE _ ?_ r ?_ hf
        · exact nodup_ids_snoc st hids _ rfl
        · exact List.mem_append_left _ hr
      · simp only [↓reduceIte]
        exact hr
  · unfold clear_history
    cases e
    · simp only [Bool.false_eq_true, ↓reduceIte]
      exact List.mem_filter.mpr ⟨hr, hf⟩
    · simp only [↓reduceIte]
      exact hr

theorem C4_witness :
    ({ id := 1, content_type := "text", content := "old", timestamp := 0,
       is_favorite := true, created_at := 0 } : Row)
      ∈ (add_item false false false favdb "text" "x" 20 20).2.rows ∧
    ({ id := 1, content_type := "text", content := "old", timestamp := 0,
       is_favorite := true, created_at := 0 } : Row)
      ∈ (clear_history false favdb true).2.rows := by
  have hids : IdsOk favdb := ⟨by decide, by decide⟩
  exact C4_favorites_never_evicted favdb hids false false false false
    "text" "x" 20 20 _ (by decide) rfl

theorem filter_notin_ids_perm (l v k : List Row)
    (hperm : l.Perm (v ++ k)) (hn : (l.map fun r => r.id).Nodup) :
    (l.filter fun r => decide (r.id ∉ v.map fun x => x.id)).Perm k := by
  have hvk : ((v ++ k).map fun r => r.id).Nodup := (hperm.map _).nodup_iff.mp hn
  rw [List.map_append, List.nodup_append] at hvk
  have h1 := hperm.filter (fun r => decide (r.id ∉ v.map fun x => x.id))
  rw [List.filter_append] at h1
  have hv0 : (v.filter fun r => decide (r.id ∉ v.map fun x => x.id)) = [] := by
    rw [List.filter_eq_nil_iff]
    intro a ha
    simp only [decide_eq_true_eq, not_not]
    exact List.mem_map_of_mem _ ha
  have hk0 : (k.filter fun r => decide (r.id ∉ v.map fun x => x.id)) = k := by
    rw [List.filter_eq_self]
    intro a ha
    simp only [decide_eq_true_eq]
    intro hmem
    exact hvk.2.2 hmem (List.mem_map_of_mem _ ha)
  rw [hv0, hk0, List.nil_append] at h1
  exact h1

theorem enforce_all_nonfav (st : ClipboardDatabase)
    (hn : (st.rows.map fun r => r.id).Nodup)
    (hnf : ∀ r ∈ st.rows, r.is_favorite = false) :
    (enforce_history_limit false st).rows.length
        = min st.rows.length st.history_limit ∧
    (∀ r ∈ st.rows, r ∉ (enforce_history_limit false st).rows →
      ∀ r2 ∈ (enforce_history_limit false st).rows,
        r.timestamp ≤ r2.timestamp) := by
  by_cases h : st.history_limit < st.rows.length
  · have hrows : (enforce_history_limit false st).rows
        = st.rows.filter (fun r => decide (r.id ∉
            ((List.insertionSort evictLe
                (st.rows.filter fun r => r.is_favorite == false)).take
              (st.rows.length - st.history_limit)).map fun x => x.id)) := by
      simp only [enforce_history_limit, Bool.false_eq_true, ↓reduceIte]
      rw [if_pos h]
    rw [hrows]
    have hfeq : (st.rows.filter fun r => r.is_favorite == false)
        = st.rows := by
      rw [List.filter_eq_self]
      intro a ha
      simp [hnf a ha]
    have hperm : st.rows.Perm
        (((List.insertionSort evictLe
            (st.rows.filter fun r => r.is_favorite == false)).take
          (st.rows.length - st.history_limit)) ++
         ((List.insertionSort evictLe
            (st.rows.filter fun r => r.is_favorite == false)).drop
          (st.rows.length - st.history_limit))) := by
      rw [List.take_append_drop]
      have h2 : (st.rows.filter fun r => r.is_favorite == false).Perm
          st.rows := by
        rw [hfeq]
      exact ((List.perm_insertionSort evictLe _).trans h2).symm
    have hres := filter_notin_ids_perm _ _ _ hperm hn
    have hslen : (List.insertionSort evictLe
        (st.rows.filter fun r => r.is_favorite == false)).length
          = st.rows.length := by
      rw [(List.perm_insertionSort evictLe _).length_eq, hfeq]
    constructor
    · have hlen := hres.length_eq
      rw [List.length_drop, hslen] at hlen
      rw [hlen]
      omega
    · intro r hr hnot r2 hr2
      have hpr : ¬ ((fun r : Row => decide (r.id ∉
          ((List.insertionSort evictLe
              (st.rows.filter fun r => r.is_favorite == false)).take
            (st.rows.length - st.history_limit)).map fun x => x.id)) r
            = true) := by
        intro hp
        exact hnot (List.mem_filter.mpr ⟨hr, hp⟩)
      simp only [decide_eq_true_eq, not_not] at hpr
      obtain ⟨v, hv, hvid⟩ := List.mem_map.mp hpr
      have hvmem : v ∈ st.rows := by
        have hm := (List.mem_insertionSort evictLe).mp
          (List.mem_of_mem_take hv)
        rw [hfeq] at hm
        exact hm
      have hveq : v = r := eq_of_id_eq hn hvmem hr hvid
      have hr2' := hres.mem_iff.mp hr2
      have hsorted : List.Sorted evictLe (List.insertionSort evictLe
          (st.rows.filter fun r => r.is_favorite == false)) :=
        List.sorted_insertionSort evictLe _
      exact evictLe_timestamp_le
        (hsorted.rel_of_mem_take_of_mem_drop (hveq ▸ hv) hr2')
  · have hrows : (enforce_history_limit false st).rows = st.rows := by
      simp only [enforce_history_limit, Bool.false_eq_true, ↓reduceIte]
      rw [if_neg h]
    rw [hrows]
    refine ⟨by omega, ?_⟩
    intro r hr hnot
    exact absurd hr hnot

theorem add_item_dup (eI eE : Bool) (st : ClipboardDatabase) (ct c : String)
    (ts now : Int) (hdup : is_duplicate false st c now 1 = true) :
    add_item false eI eE st ct c ts now = (false, st) := by
  unfold add_item
  rw [if_pos hdup]

theorem add_item_insert (st : ClipboardDatabase) (ct c : String)
    (ts now : Int) (hdup : is_duplicate false st c now 1 = false)
    (hids : IdsOk st) (hnf : ∀ r ∈ st.rows, r.is_favorite = false) :
    (add_item false false false st ct c ts now).1 = true ∧
    (add_item false false false st ct c ts now).2.history_limit
      = st.history_limit ∧
    IdsOk (add_item false false false st ct c ts now).2 ∧
    (∀ r ∈ (add_item false false false st ct c ts now).2.rows,
      r.is_favorite = false) ∧
    (add_item false false false st ct c ts now).2.rows.length
      = min (st.rows.length + 1) st.history_limit ∧
    (∀ r ∈ st.rows, r ∉ (add_item false false false st ct c ts now).2.rows →
      ∀ r2 ∈ (add_item false false false st ct c ts now).2.rows,
        r.timestamp ≤ r2.timestamp) := by
  have hadd : add_item false false false st ct c ts now =
      (true, enforce_history_limit false
        { st with
          rows := st.rows ++
            [{ id := st.next_id, content_type := ct,
               content := c, timestamp := ts,
               is_favorite := false, created_at := now }],
          next_id := st.next_id + 1 }) := by
    unfold add_item
    rw [if_neg (by simp [hdup])]
    rfl
  have hn1 : (({ st with
      rows := st.rows ++
        [{ id := st.next_id, content_type := ct,
           content := c, timestamp := ts,
           is_favorite := false, created_at := now }],
      next_id := st.next_id + 1 } : ClipboardDatabase).rows.map
        fun r => r.id).Nodup :=
    nodup_ids_snoc st hids _ rfl
  have hnf1 : ∀ r ∈ ({ st with
      rows := st.rows ++
        [{ id := st.next_id, content_type := ct,
           content := c, timestamp := ts,
           is_favorite := false, created_at := now }],
      next_id := st.next_id + 1 } : ClipboardDatabase).rows,
      r.is_favorite = false := by
    intro r hr
    rcases List.mem_append.mp hr with hr1 | hr1
    · exact hnf r hr1
    · rw [List.mem_singleton] at hr1
      rw [hr1]
  have henf := enforce_all_nonfav _ hn1 hnf1
  rw [hadd]
  refine ⟨rfl, ?_, ⟨?_, ?_⟩, ?_, ?_, ?_⟩
  · rw [enforce_limit]
  · exact (hn1.sublist ((enforce_sublist false _).map _))
  · intro r hr
    rw [enforce_next_id]
    have hr1 := (enforce_sublist false _).subset hr
    rcases List.mem_append.mp hr1 with hr2 | hr2
    · have := hids.2 r hr2
      dsimp only
      omega
    · rw [List.mem_singleton] at hr2
      rw [hr2]
      dsimp only
      omega
  · intro r hr
    exact hnf1 r ((enforce_sublist false _).subset hr)
  · rw [henf.1]
    simp [List.length_append]
  · intro r hr hnot r2 hr2
    exact henf.2 r (List.mem_append_left _ hr) hnot r2 hr2

theorem runAdds_inv (calls : List AddCall) (st : ClipboardDatabase)
    (hids : IdsOk st) (hnf : ∀ r ∈ st.rows, r.is_favorite = false)
    (hlen : st.rows.length ≤ st.history_limit) :
    (runAdds st calls).1.history_limit = st.history_limit ∧
    IdsOk (runAdds st calls).1 ∧
    (∀ r ∈ (runAdds st calls).1.rows, r.is_favorite = false) ∧
    (runAdds st calls).1.rows.length
      = min (st.rows.length + (runAdds st calls).2) st.history_limit := by
  induction calls generalizing st with
  | nil =>
    refine ⟨rfl, hids, hnf, ?_⟩
    simp only [runAdds]
    omega
  | cons a rest ih =>
    cases hdup : is_duplicate false st a.content a.now 1 with
    | false =>
      have hstep := add_item_insert st a.content_type a.content a.timestamp
        a.now hdup hids hnf
      obtain ⟨hb, hcap2, hids2, hnf2, hlen2, _⟩ := hstep
      have hlen2' : (add_item false false false st a.content_type a.content
          a.timestamp a.now).2.rows.length
          ≤ (add_item false false false st a.content_type a.content
          a.timestamp a.now).2.history_limit := by
        rw [hlen2, hcap2]
        omega
      have hrest := ih _ hids2 hnf2 hlen2'
      simp only [runAdds, hb, ↓reduceIte]
      refine ⟨?_, hrest.2.1, hrest.2.2.1, ?_⟩
      · rw [hrest.1, hcap2]
      · rw [hrest.2.2.2, hlen2, hcap2]
        omega
    | true =>
      have hstep := add_item_dup false false st a.content_type a.content
        a.timestamp a.now hdup
      simp only [runAdds, hstep, Bool.false_eq_true, ↓reduceIte, Nat.zero_add]
      exact ih st hids hnf hlen

/-- C1: starting from a freshly initialised store configured with history
cap `cap`, any sequence of `add_item` calls leaves only non-favorite rows,
exactly `min inserted cap` of them — hence exactly `cap` rows once more
than `cap` items have been inserted — and one further `add_item` only ever
removes rows whose timestamp is no larger than that of every non-favorite
row it leaves in the store (oldest non-favorites first). -/
theorem C1_cap_and_oldest_eviction (cap : Nat) (calls : List AddCall)
    (ct c : String) (ts now : Int) :
    (∀ r ∈ (runAdds (initWithCap cap) calls).1.rows, r.is_favorite = false) ∧
    (runAdds (initWithCap cap) calls).1.rows.length
      = min (runAdds (initWithCap cap) calls).2 cap ∧
    (cap ≤ (runAdds (initWithCap cap) calls).2 →
      (runAdds (initWithCap cap) calls).1.rows.length = cap) ∧
    (∀ r ∈ (runAdds (initWithCap cap) calls).1.rows,
      r ∉ (add_item false false false (runAdds (initWithCap cap) calls).1
            ct c ts now).2.rows →
      ∀ r2 ∈ (add_item false false false (runAdds (initWithCap cap) calls).1
            ct c ts now).2.rows,
        r2.is_favorite = false → r.timestamp ≤ r2.timestamp) := by
  have hinit : IdsOk (initWithCap cap) := by
    constructor <;> simp [initWithCap]
  have hrun := runAdds_inv calls (initWithCap cap) hinit
    (by simp [initWithCap]) (by simp [initWithCap])
  have e1 : (initWithCap cap).rows.length = 0 := rfl
  have e2 : (initWithCap cap).history_limit = cap := rfl
  refine ⟨hrun.2.2.1, ?_, ?_, ?_⟩
  · have h1 := hrun.2.2.2
    rw [e1, e2] at h1
    simpa using h1
  · intro hge
    have h1 := hrun.2.2.2
    rw [e1, e2] at h1
    omega
  · intro r hr hnot r2 hr2 _
    cases hdup : is_duplicate false (runAdds (initWithCap cap) calls).1
        c now 1 with
    | false =>
      have hstep := add_item_insert _ ct c ts now hdup hrun.2.1 hrun.2.2.1
      exact hstep.2.2.2.2.2 r hr hnot r2 hr2
    | true =>
      simp only [add_item_dup false false _ ct c ts now hdup] at hnot
      exact absurd hr hnot

theorem C1_witness :
    (runAdds (initWithCap 1)
        [⟨"text", "a", 5, 5⟩, ⟨"text", "b", 9, 9⟩]).1.rows.length
      = min (runAdds (initWithCap 1)
        [⟨"text", "a", 5, 5⟩, ⟨"text", "b", 9, 9⟩]).2 1 ∧
    (9 : Int) ≤ 20 := by
  constructor
  · exact (C1_cap_and_oldest_eviction 1
      [⟨"text", "a", 5, 5⟩, ⟨"text", "b", 9, 9⟩] "text" "c" 20 20).2.1
  · exact (C1_cap_and_oldest_eviction 1
      [⟨"text", "a", 5, 5⟩, ⟨"text", "b", 9, 9⟩] "text" "c" 20 20).2.2.2
      ⟨2, "text", "b", 9, false, 9⟩ (by decide) (by decide)
      ⟨3, "text", "c", 20, false, 20⟩ (by decide) (by decide)

/-- C3 counterexample: from the two-row store `c3base` (cap 2, both rows
timestamped 1000), `add_item "y"` at time 10 succeeds but the inserted row
is immediately evicted as the oldest non-favorite, so a second identical
call within the one-minute window (second call time 10, first stored
timestamp 10) inserts again and returns True — not False — and afterwards
no row with that content is stored at all, not exactly one. -/
theorem C3_counterexample :
    (add_item false false false c3base "text" "y" 10 10).1 = true ∧
    ((10 : Int) - 10 < 60) ∧
    (add_item false false false
        (add_item false false false c3base "text" "y" 10 10).2
        "text" "y" 10 10).1 = true ∧
    ((add_item false false false
        (add_item false false false c3base "text" "y" 10 10).2
        "text" "y" 10 10).2.rows.filter fun r => r.content == "y").length
      = 0 := by
  refine ⟨by decide, by decide, by decide, by decide⟩

/-- C3 (amended): calling `add_item` twice with the same content, the
second call within one minute of the first call's stored timestamp,
performs no second insert and returns False — provided the row the first
call inserted is still present when the second call runs (the history-cap
eviction can delete it immediately, as `C3_counterexample` shows). -/
theorem C3_amended_dedup (st : ClipboardDatabase) (ct ct2 c : String)
    (ts ts2 now now2 : Int) (hwin : now2 - ts < 60)
    (hsurv : ({ id := st.next_id, content_type := ct, content := c,
                timestamp := ts, is_favorite := false,
                created_at := now } : Row)
      ∈ (add_item false false false st ct c ts now).2.rows) :
    (add_item false false false (add_item false false false st ct c ts now).2
        ct2 c ts2 now2).1 = false ∧
    (add_item false false false (add_item false false false st ct c ts now).2
        ct2 c ts2 now2).2 = (add_item false false false st ct c ts now).2 := by
  set st2 := (add_item false false false st ct c ts now).2 with hst2
  have hdup : is_duplicate false st2 c now2 1 = true := by
    unfold is_duplicate
    simp only [Bool.false_eq_true, ↓reduceIte]
    rw [List.any_eq_true]
    refine ⟨_, hsurv, ?_⟩
    simp only [Bool.and_eq_true, beq_self_eq_true, true_and,
      decide_eq_true_eq]
    omega
  unfold add_item
  rw [if_pos hdup]
  exact ⟨rfl, rfl⟩

theorem C3_amended_witness :
    (add_item false false false
        (add_item false false false initDB "text" "hello" 0 0).2
        "text" "hello" 30 30).1 = false :=
  (C3_amended_dedup initDB "text" "text" "hello" 0 30 0 30 (by decide)
    (by decide)).1

/-- C5 counterexample: the store `c5db` holds one row with content "ab";
searching for the query "_" returns that row although "ab" does not
contain "_" as a substring under either a case-sensitive or the
ASCII-case-insensitive collation — the `_` is an SQL LIKE wildcard. -/
theorem C5_counterexample :
    ({ id := 1, content_type := "text", content := "ab", timestamp := 0,
       is_favorite := false, created_at := 0 } : Row)
      ∈ search_items false c5db "_" 50 ∧
    ¬ ("_".data <:+: "ab".data) ∧
    ¬ ("_".data.map upperAscii <:+: "ab".data.map upperAscii) := by
  refine ⟨by decide, by decide, by decide⟩

/-- C5 (amended): `search_items` returns at most `limit` rows of the store,
each of whose content matches the SQL LIKE pattern `%query%` — ASCII
case-insensitive, with `%` and `_` in the query acting as wildcards —
ordered favorites first and then newest first. -/
theorem C5_like_semantics (st : ClipboardDatabase) (query : String)
    (limit : Nat) :
    (search_items false st query limit).length ≤ limit ∧
    (∀ r ∈ search_items false st query limit,
      r ∈ st.rows ∧
        likeMatch ("%" ++ query ++ "%").data r.content.data = true) ∧
    List.Pairwise histOrder (search_items false st query limit) := by
  refine ⟨?_, ?_, ?_⟩
  · simp only [search_items, Bool.false_eq_true, ↓reduceIte]
    exact List.length_take_le limit _
  · intro r hr
    simp only [search_items, Bool.false_eq_true, ↓reduceIte] at hr
    have h1 := (List.mem_insertionSort histLe).mp (List.mem_of_mem_take hr)
    have h2 := List.mem_filter.mp h1
    exact ⟨h2.1, h2.2⟩
  · simp only [search_items, Bool.false_eq_true, ↓reduceIte]
    exact ((List.sorted_insertionSort histLe _).sublist
      (List.take_sublist _ _)).imp fun h => histOrder_of_histLe h

theorem C5_witness :
    (search_items false c5db "A" 50).length ≤ 50 ∧
    likeMatch ("%" ++ "A" ++ "%").data "ab".data = true := by
  refine ⟨(C5_like_semantics c5db "A" 50).1, ?_⟩
  exact ((C5_like_semantics c5db "A" 50).2.1
    ⟨1, "text", "ab", 0, false, 0⟩ (by decide)).2

theorem wsOnly_imgPath (tsStr : String) : wsOnly (imgPath tsStr) = false := by
  unfold imgPath wsOnly
  have h1 : "~/.clipboard_manager/images/clipnest_".data.all isPyWs
      = false := by decide
  simp only [String.data_append, List.all_append, h1, Bool.false_and]

theorem add_item_good (eD eI eE : Bool) (db : ClipboardDatabase)
    (ct c : String) (ts now : Int) (hg : GoodDB db) (hc : wsOnly c = false) :
    GoodDB (add_item eD eI eE db ct c ts now).2 := by
  unfold add_item
  by_cases hdup : is_duplicate eD db c now 1
  · rw [if_pos hdup]
    exact hg
  · rw [if_neg hdup]
    cases eI
    · simp only [Bool.false_eq_true, ↓reduceIte]
      refine ⟨⟨?_, ?_⟩, ?_⟩
      · exact (nodup_ids_snoc db hg.1 _ rfl).sublist
          ((enforce_sublist eE _).map _)
      · intro r hr
        rw [enforce_next_id]
        have hr1 := (enforce_sublist eE _).subset hr
        rcases List.mem_append.mp hr1 with h2 | h2
        · have := hg.1.2 r h2
          dsimp only
          omega
        · rw [List.mem_singleton] at h2
          rw [h2]
          dsimp only
          omega
      · intro r hr
        have hr1 := (enforce_sublist eE _).subset hr
        rcases List.mem_append.mp hr1 with h2 | h2
        · exact hg.2 r h2
        · rw [List.mem_singleton] at h2
          rw [h2]
          exact hc
    · simp only [↓reduceIte]
      exact hg

theorem GoodDB_mk_of_sublist (db : ClipboardDatabase) (hg : GoodDB db)
    (rows' : List Row) (hsub : rows'.Sublist db.rows) (cap : Nat) :
    GoodDB { rows := rows', next_id := db.next_id, history_limit := cap } := by
  refine ⟨⟨hg.1.1.sublist (hsub.map _), ?_⟩, ?_⟩
  · intro r hr
    exact hg.1.2 r (hsub.subset hr)
  · intro r hr
    exact hg.2 r (hsub.subset hr)

theorem toggle_good (e : Bool) (db : ClipboardDatabase) (i : Nat)
    (hg : GoodDB db) : GoodDB (toggle_favorite e db i).2 := by
  unfold toggle_favorite
  cases e
  · simp only [Bool.false_eq_true, ↓reduceIte]
    refine ⟨⟨?_, ?_⟩, ?_⟩
    · dsimp only
      rw [List.map_map]
      have heq : ∀ a ∈ db.rows, ((fun r : Row => r.id) ∘ fun r : Row =>
          if r.id = i then { r with is_favorite := !r.is_favorite } else r) a
            = a.id := by
        intro a _
        by_cases h : a.id = i <;> simp [h]
      rw [List.map_congr_left heq]
      exact hg.1.1
    · intro r hr
      dsimp only at hr ⊢
      obtain ⟨r0, hr0, heq⟩ := List.mem_map.mp hr
      rw [← heq]
      by_cases h : r0.id = i
      · rw [if_pos h]
        exact hg.1.2 r0 hr0
      · rw [if_neg h]
        exact hg.1.2 r0 hr0
    · intro r hr
      dsimp only at hr
      obtain ⟨r0, hr0, heq⟩ := List.mem_map.mp hr
      rw [← heq]
      by_cases h : r0.id = i
      · rw [if_pos h]
        exact hg.2 r0 hr0
      · rw [if_neg h]
        exact hg.2 r0 hr0
  · simp only [↓reduceIte]
    exact hg

theorem delete_good (e : Bool) (db : ClipboardDatabase) (i : Nat)
    (hg : GoodDB db) : GoodDB (delete_item e db i).2 := by
  unfold delete_item
  cases e
  · simp only [Bool.false_eq_true, ↓reduceIte]
    exact GoodDB_mk_of_sublist db hg _ (List.filter_sublist _) _
  · simp only [↓reduceIte]
    exact hg

theorem clear_good (e kf : Bool) (db : ClipboardDatabase)
    (hg : GoodDB db) : GoodDB (clear_history e db kf).2 := by
  unfold clear_history
  cases e
  · simp only [Bool.false_eq_true, ↓reduceIte]
    cases kf
    · simp only [Bool.false_eq_true, ↓reduceIte]
      exact GoodDB_mk_of_sublist db hg _ (List.nil_sublist _) _
    · simp only [↓reduceIte]
      exact GoodDB_mk_of_sublist db hg _ (List.filter_sublist _) _
  · simp only [↓reduceIte]
    exact hg

theorem on_change_good (eD eI eE : Bool) (ms : MonitorState)
    (db : ClipboardDatabase) (clip : ClipData) (now : Int) (tsStr : String)
    (hg : GoodDB db) :
    GoodDB (on_clipboard_change eD eI eE ms db clip now tsStr).2 := by
  unfold on_clipboard_change
  by_cases hig : ms.ignore_next_change = true
  · rw [if_pos hig]
    exact hg
  · rw [if_neg hig]
    cases clip with
    | empty => exact hg
    | text t =>
      dsimp only
      by_cases hskip : ms.skip_next_text = true
      · rw [if_pos hskip]
        exact hg
      · rw [if_neg hskip]
        by_cases hws : wsOnly t = true
        · rw [if_pos hws]
          exact hg
        · rw [if_neg hws]
          by_cases hlast : some t = ms.last_clipboard_text
          · rw [if_pos hlast]
            exact hg
          · rw [if_neg hlast]
            exact add_item_good eD eI eE db "text" t now now hg
              (Bool.eq_false_iff.mpr hws)
    | image h =>
      dsimp only
      by_cases hskip : ms.skip_next_image = true
      · rw [if_pos hskip]
        exact hg
      · rw [if_neg hskip]
        by_cases hlast : some h = ms.last_clipboard_image_hash
        · rw [if_pos hlast]
          exact hg
        · rw [if_neg hlast]
          exact add_item_good eD eI eE db "image" (imgPath tsStr) now now hg
            (wsOnly_imgPath tsStr)

theorem reach_good (s : ProgState) (h : Reach s) : GoodDB s.db := by
  induction h with
  | init =>
    refine ⟨⟨?_, ?_⟩, ?_⟩ <;> simp [initDB, initWithCap]
  | external s d eD eI eE now tsStr hs ih =>
    exact on_change_good eD eI eE s.ms s.db d now tsStr ih
  | clicked s r eD eI eE now tsStr hs hr ih =>
    exact on_change_good eD eI eE s.ms s.db (ClipData.text r.content)
      now tsStr ih
  | setClip s content content_type imageHash eD eI eE now tsStr hs ih =>
    unfold set_clipboard_step set_clipboard
    by_cases himg : (content_type == "image") = true
    · cases imageHash with
      | some h2 =>
        simp only [himg, ↓reduceIte]
        exact on_change_good eD eI eE _ s.db (ClipData.image h2) now tsStr ih
      | none =>
        simp only [himg, ↓reduceIte]
        exact ih
    · have hf : (content_type == "image") = false := Bool.eq_false_iff.mpr himg
      simp only [hf, Bool.false_eq_true, ↓reduceIte]
      exact on_change_good eD eI eE _ s.db (ClipData.text content) now tsStr ih
  | toggled s e i hs ih =>
    exact toggle_good e s.db i ih
  | deleted s e i hs ih =>
    exact delete_good e s.db i ih
  | cleared s e kf hs ih =>
    exact clear_good e kf s.db ih

/-- C9: in every reachable program state, no stored clipboard item has
content that is empty or whitespace-only — the text ingestion path skips
such strings (`if text and text.strip()`) and the image path stores a
non-blank file path. -/
theorem C9_no_blank_content (s : ProgState) (h : Reach s) :
    ∀ r ∈ s.db.rows, wsOnly r.content = false :=
  (reach_good s h).2

theorem C9_witness : wsOnly "hi" = false := by
  have hreach : Reach (deliver false false false 0 "ts"
      { ms := initMonitor, db := initDB, clip := ClipData.text "hi" }) :=
    Reach.external { ms := initMonitor, db := initDB, clip := ClipData.empty }
      (ClipData.text "hi") false false false 0 "ts" Reach.init
  exact C9_no_blank_content _ hreach ⟨1, "text", "hi", 0, false, 0⟩ (by decide)

/-- C2 (code bug evidence): in the reachable demo run — copy "alpha" at
time 0, copy "beta" at time 5 — clicking the listed "alpha" item at time
100 is a presentation-layer copy step (`ui.on_item_clicked`), yet it grows
the store by one row: the handler writes the clipboard with
`pyperclip.copy` instead of `ClipNestMonitor.set_clipboard`, so the
suppression flag is never armed and the monitor ingests the echo.  The
last conjunct shows the intended path: the same write through
`set_clipboard` leaves the store unchanged. -/
theorem C2_self_copy_not_suppressed :
    Reach demo2 ∧
    demoRow ∈ demo2.db.rows ∧
    Reach (on_item_clicked false false false 100 "t2" demo2
      demoRow.content) ∧
    (on_item_clicked false false false 100 "t2" demo2
      demoRow.content).db.rows.length = demo2.db.rows.length + 1 ∧
    (set_clipboard_step false false false 100 "t2" demo2 demoRow.content
      "text" none).db = demo2.db := by
  have h0 : Reach demo0 := Reach.init
  have h1 : Reach demo1 := Reach.external demo0 (ClipData.text "alpha")
    false false false 0 "t0" h0
  have h2 : Reach demo2 := Reach.external demo1 (ClipData.text "beta")
    false false false 5 "t1" h1
  refine ⟨h2, by decide, ?_, by decide, by decide⟩
  exact Reach.clicked demo2 demoRow false false false 100 "t2" h2 (by decide)

theorem C7_witness :
    (get_history false favdb 2).length ≤ 2 ∧
    ({ id := 1, content_type := "text", content := "old", timestamp := 0,
       is_favorite := true, created_at := 0 } : Row) ∈ favdb.rows := by
  refine ⟨(C7_get_history_shape favdb 2).1, ?_⟩
  exact (C7_get_history_shape favdb 2).2.1 _ (by decide)

end ClipNest
